import Mathlib

/-!
Verification of the GitHub activity / PR ingestion pipeline of the codula app.

The TypeScript sources are shallowly embedded: JavaScript strings become
`List Char` (wrapped back into `String` at the record boundary), the regular
expressions of the source are replaced by equivalent explicit left-to-right
scanners, promise rejection becomes `Except`, the ambient clock becomes an
explicit `now` argument, and the persisted token table becomes a list of rows
passed in and out of each operation.  Network fetches are abstracted into
`Except`-valued parameters so that the pure data-shaping logic of each
function is embedded exactly.
-/

namespace Codula

/-- Whitespace as recognised by the JavaScript `trim` / `\s` class
(restricted to the code points that can actually occur in the inputs the
repository handles). -/
def isJsWS (c : Char) : Bool :=
  c == ' ' || c == '\t' || c == '\n' || c == '\r' || c == '\x0b' || c == '\x0c'

/-- JavaScript `String.prototype.trim`: removes whitespace from both ends. -/
def jsTrim (cs : List Char) : List Char :=
  ((cs.dropWhile isJsWS).reverse.dropWhile isJsWS).reverse

/-- `lhas pat s` holds when `pat` is a literal prefix of `s`
(JavaScript `s.startsWith(pat)`). -/
def lhas : List Char → List Char → Bool
  | [], _ => true
  | _ :: _, [] => false
  | p :: ps, c :: cs => p == c && lhas ps cs

@[simp] theorem lhas_nil (s : List Char) : lhas [] s = true := rfl

@[simp] theorem lhas_cons_nil (p : Char) (ps : List Char) :
    lhas (p :: ps) [] = false := rfl

@[simp] theorem lhas_cons_cons (p c : Char) (ps cs : List Char) :
    lhas (p :: ps) (c :: cs) = (p == c && lhas ps cs) := rfl

theorem lhas_self_append (p r : List Char) : lhas p (p ++ r) = true := by
  induction p with
  | nil => rfl
  | cons a as ih => simp [ih]

/-- JavaScript `s.split('\n')`. -/
def splitNl : List Char → List (List Char)
  | [] => [[]]
  | c :: cs =>
    if c == '\n' then [] :: splitNl cs
    else
      match splitNl cs with
      | [] => [[c]]
      | l :: ls => (c :: l) :: ls

/-- The literal `diff --git`. -/
def diffGitLit : List Char :=
  ['d', 'i', 'f', 'f', ' ', '-', '-', 'g', 'i', 't']

/-- The literal `index `. -/
def indexLit : List Char := ['i', 'n', 'd', 'e', 'x', ' ']

/-- Worker for `splitBefore`; the accumulator holds the current chunk in
reverse order.  A split never happens while the accumulator is empty, which
matches the JavaScript semantics of a zero-width lookahead match at the
start of the remaining input. -/
def sbAux (delim : List Char) : List Char → List Char → List (List Char)
  | [], acc => [acc.reverse]
  | c :: cs, acc =>
    if !acc.isEmpty && lhas delim (c :: cs) then
      acc.reverse :: sbAux delim cs [c]
    else
      sbAux delim cs (c :: acc)

/-- JavaScript `s.split(re)` for the zero-width lookahead pattern
`(?=delim)`: cuts the string right before every occurrence of `delim`
except one at the very start. -/
def splitBefore (delim : List Char) (cs : List Char) : List (List Char) :=
  sbAux delim cs []

/-- One reconstructed per-file change, as produced by the diff parser. -/
structure FileChange where
  fileName : String
  original : String
  changed : String
  deriving Repr, DecidableEq

/-- The literal `diff --git a/`. -/
def dgaLit : List Char :=
  ['d', 'i', 'f', 'f', ' ', '-', '-', 'g', 'i', 't', ' ', 'a', '/']

/-- The literal ` b/`. -/
def bSlashLit : List Char := [' ', 'b', '/']

/-- Attempt to read ` b/` followed by a nonempty run of non-newline
characters (the greedy second capture group of the header pattern
`diff --git a\/(.+?) b\/(.+)`). -/
def checkB (cs : List Char) : Option (List Char) :=
  if lhas bSlashLit cs then
    let g2 := (cs.drop 3).takeWhile (fun c => !(c == '\n'))
    if g2.isEmpty then none else some g2
  else none

/-- Lazy first capture group of the header pattern: extend the group one
character at a time (never across a newline) until ` b/` plus a valid
second group follows. -/
def findSplitB : List Char → Option (List Char × List Char)
  | [] => none
  | c :: cs =>
    if c == '\n' then none
    else
      match checkB cs with
      | some g2 => some ([c], g2)
      | none =>
        match findSplitB cs with
        | some (g1, g2) => some (c :: g1, g2)
        | none => none

/-- Leftmost match of the section-header regular expression
`diff --git a\/(.+?) b\/(.+)`: scan every start position in order. -/
def scanHeader : List Char → Option (List Char × List Char)
  | [] => none
  | c :: cs =>
    if lhas dgaLit (c :: cs) then
      match findSplitB ((c :: cs).drop dgaLit.length) with
      | some r => some r
      | none => scanHeader cs
    else scanHeader cs

/-- The hunk-body accumulation loop of `extractFileChanges` (part_000,
lines 245-263): walks the lines of one section with the `inHunk` flag,
returning the accumulated `(original, changed)` pair. -/
def accumLines : List (List Char) → Bool → List Char × List Char
  | [], _ => ([], [])
  | line :: rest, inHunk =>
    if lhas ['@', '@'] line then accumLines rest true
    else if !inHunk || lhas diffGitLit line || lhas indexLit line then
      accumLines rest inHunk
    else if lhas ['-'] line && !lhas ['-', '-', '-'] line then
      let oc := accumLines rest inHunk
      (line.drop 1 ++ '\n' :: oc.1, oc.2)
    else if lhas ['+'] line && !lhas ['+', '+', '+'] line then
      let oc := accumLines rest inHunk
      (oc.1, line.drop 1 ++ '\n' :: oc.2)
    else if lhas [' '] line then
      let oc := accumLines rest inHunk
      (line.drop 1 ++ '\n' :: oc.1, line.drop 1 ++ '\n' :: oc.2)
    else accumLines rest inHunk

/-- `extractFileChanges` (part_000, lines 231-273): split the diff into
per-file sections on `diff --git` boundaries, extract the post-image file
name from each header, replay the hunk lines, and emit the trimmed
accumulated strings. -/
def extractFileChanges (diff : String) : List FileChange :=
  if diff == "" then []
  else
    (splitBefore diffGitLit diff.toList).filterMap fun sec =>
      match scanHeader sec with
      | none => none
      | some (g1, g2) =>
        let fileName := if g2.isEmpty then g1 else g2
        let oc := accumLines (splitNl sec) false
        some { fileName := String.mk fileName
               original := String.mk (jsTrim oc.1)
               changed := String.mk (jsTrim oc.2) }

/-- Result of a successful PR-URL parse. -/
structure PRRef where
  owner : String
  repo : String
  prNumber : Nat
  deriving Repr, DecidableEq

/-- The literal `github.com/`. -/
def ghLit : List Char :=
  ['g', 'i', 't', 'h', 'u', 'b', '.', 'c', 'o', 'm', '/']

/-- The literal `pull/`. -/
def pullLit : List Char := ['p', 'u', 'l', 'l', '/']

/-- The literal `pulls/`. -/
def pullsLit : List Char := ['p', 'u', 'l', 'l', 's', '/']

/-- Tail shapes of the four URL patterns of `parsePRUrl`: unanchored, or
anchored with an optional query suffix, or anchored with an optional hash
suffix. -/
inductive Anchor where
  | free
  | query
  | hash
  deriving Repr, DecidableEq

/-- Whether the text after the captured digits satisfies a pattern tail:
`(?:\?.*)?$` and `(?:#.*)?$` accept the end of input or the marker
character followed by non-newline characters up to the end (shrinking the
greedy `\d+` capture can never help, because the character after a shorter
capture is a digit, which neither tail accepts, so this check is exactly
the regular-expression semantics). -/
def anchorOk : Anchor → List Char → Bool
  | .free, _ => true
  | .query, rest =>
    rest.isEmpty ||
      (match rest with
       | '?' :: t => t.all fun c => !(c == '\n')
       | _ => false)
  | .hash, rest =>
    rest.isEmpty ||
      (match rest with
       | '#' :: t => t.all fun c => !(c == '\n')
       | _ => false)

/-- One segment capture `([^\/]+)\/`: a nonempty run of non-slash
characters followed by a slash (the greedy run is the only possible
match, since a shorter run would have to be followed by a slash that the
character class excludes). -/
def segTake (cs : List Char) : Option (List Char × List Char) :=
  let seg := cs.takeWhile fun c => !(c == '/')
  match cs.dropWhile (fun c => !(c == '/')) with
  | '/' :: rest => if seg.isEmpty then none else some (seg, rest)
  | _ => none

/-- JavaScript `parseInt(ds, 10)` on a digit string. -/
def digitsToNat (ds : List Char) : Nat :=
  ds.foldl (fun n c => n * 10 + (c.toNat - '0'.toNat)) 0

/-- Match attempt of one `parsePRUrl` pattern
`github\.com\/([^\/]+)\/([^\/]+)\/<kw>(\d+)<anchor>` at the current start
position. -/
def tryAtP (kw : List Char) (anchor : Anchor) (cs : List Char) : Option PRRef :=
  if lhas ghLit cs then
    match segTake (cs.drop ghLit.length) with
    | none => none
    | some (owner, r1) =>
      match segTake r1 with
      | none => none
      | some (repo, r2) =>
        if lhas kw r2 then
          let r3 := r2.drop kw.length
          let ds := r3.takeWhile Char.isDigit
          if ds.isEmpty then none
          else if anchorOk anchor (r3.dropWhile Char.isDigit) then
            some { owner := String.mk owner
                   repo := String.mk repo
                   prNumber := digitsToNat ds }
          else none
        else none
  else none

/-- Leftmost match of one `parsePRUrl` pattern: try every start position
from the left. -/
def scanP (kw : List Char) (anchor : Anchor) : List Char → Option PRRef
  | [] => none
  | c :: cs =>
    match tryAtP kw anchor (c :: cs) with
    | some r => some r
    | none => scanP kw anchor cs

/-- `parsePRUrl` (part_001, lines 10-41): trim the input, try the four
patterns in their source order, first match wins, `none` on total
mismatch.  The function is total: the try/catch of the source can never
fire. -/
def parsePRUrl (url : String) : Option PRRef :=
  let cleanUrl := jsTrim url.toList
  match scanP pullLit .free cleanUrl with
  | some r => some r
  | none =>
    match scanP pullsLit .free cleanUrl with
    | some r => some r
    | none =>
      match scanP pullLit .query cleanUrl with
      | some r => some r
      | none => scanP pullLit .hash cleanUrl

theorem dropWhile_length_le {α : Type} (p : α → Bool) (l : List α) :
    (l.dropWhile p).length ≤ l.length :=
  (List.dropWhile_sublist p).length_le

/-- Case-insensitive literal prefix test (the `i` flag of the issue
regular expressions; the keyword literals are lowercase). -/
def ciHas : List Char → List Char → Bool
  | [], _ => true
  | _ :: _, [] => false
  | p :: ps, c :: cs => p == c.toLower && ciHas ps cs

/-- Match attempt of the bare issue pattern `#(\d+)` at the current start
position: a hash followed by a nonempty greedy digit run; returns the
capture and the remaining input after the match. -/
def tryHash (cs : List Char) : Option (List Char × List Char) :=
  match cs with
  | '#' :: r =>
    let ds := r.takeWhile Char.isDigit
    if ds.isEmpty then none else some (ds, r.dropWhile Char.isDigit)
  | _ => none

/-- Generic global scanner of a `g`-flagged pattern: scan left to right
trying the match attempt `try1` at every position, resuming right after
the end of each match.  The fuel argument (instantiated with the input
length, which the step lemmas prove sufficient) makes the recursion
structural. -/
def scanAll (try1 : List Char → Option (List Char × List Char)) :
    Nat → List Char → List (List Char)
  | 0, _ => []
  | _ + 1, [] => []
  | fuel + 1, c :: cs =>
    match try1 (c :: cs) with
    | some (ds, rest) => ds :: scanAll try1 fuel rest
    | none => scanAll try1 fuel cs

theorem scanAll_mono (try1 : List Char → Option (List Char × List Char))
    (hlen : ∀ c cs ds rest, try1 (c :: cs) = some (ds, rest) →
      rest.length ≤ cs.length) :
    ∀ f1 f2 cs, cs.length ≤ f1 → cs.length ≤ f2 →
      scanAll try1 f1 cs = scanAll try1 f2 cs := by
  intro f1
  induction f1 with
  | zero =>
    intro f2 cs h1 h2
    cases cs with
    | nil => cases f2 <;> rfl
    | cons c cs' => simp at h1
  | succ k ih =>
    intro f2 cs h1 h2
    cases cs with
    | nil => cases f2 <;> rfl
    | cons c cs' =>
      cases f2 with
      | zero => simp at h2
      | succ k2 =>
        cases htry : try1 (c :: cs') with
        | none =>
          simp only [scanAll, htry]
          simp at h1 h2
          exact ih k2 cs' (by omega) (by omega)
        | some pair =>
          obtain ⟨ds, rest⟩ := pair
          have hr := hlen c cs' ds rest htry
          simp only [scanAll, htry]
          simp at h1 h2
          rw [ih k2 rest (by omega) (by omega)]

/-- All matches of `/#(\d+)/g`: scan left to right, resuming after the end
of each match. -/
def bm (cs : List Char) : List (List Char) :=
  scanAll tryHash cs.length cs

/-- Tail of a keyword-pattern match after the keyword itself: a nonempty
whitespace run, a hash, and a nonempty greedy digit run. -/
def tryKwTail (r1 : List Char) : Option (List Char × List Char) :=
  if (r1.takeWhile isJsWS).isEmpty then none
  else
    match r1.dropWhile isJsWS with
    | '#' :: r3 =>
      if (r3.takeWhile Char.isDigit).isEmpty then none
      else some (r3.takeWhile Char.isDigit, r3.dropWhile Char.isDigit)
    | _ => none

/-- Match attempt of one keyword pattern `/kw\s+#(\d+)/gi` at the current
start position. -/
def tryKw (kw : List Char) (cs : List Char) : Option (List Char × List Char) :=
  if ciHas kw cs then tryKwTail (cs.drop kw.length) else none

theorem tryKwTail_some_length {r1 ds rest} (h : tryKwTail r1 = some (ds, rest)) :
    rest.length + 1 ≤ r1.length := by
  unfold tryKwTail at h
  split at h
  case isTrue => exact absurd h (by simp)
  case isFalse hws =>
    revert h
    split
    case h_2 => intro h; exact absurd h (by simp)
    case h_1 r3 heq =>
      intro h
      split at h
      case isTrue => exact absurd h (by simp)
      case isFalse =>
        have h1 : rest = r3.dropWhile Char.isDigit := by
          cases h; rfl
        have h2 : rest.length ≤ r3.length := by
          rw [h1]; exact dropWhile_length_le _ _
        have h3 : r3.length + 1 ≤ r1.length := by
          have h4 := dropWhile_length_le isJsWS r1
          rw [heq] at h4
          simpa using h4
        omega

theorem tryKw_some_length {kw cs ds rest} (h : tryKw kw cs = some (ds, rest)) :
    rest.length < cs.length := by
  unfold tryKw at h
  split at h
  case isFalse => exact absurd h (by simp)
  case isTrue hci =>
    have h1 := tryKwTail_some_length h
    have h2 : (cs.drop kw.length).length ≤ cs.length := by simp
    omega

/-- All matches of one keyword pattern: scan left to right, resuming after
the end of each match. -/
def km (kw : List Char) (cs : List Char) : List (List Char) :=
  scanAll (tryKw kw) cs.length cs

/-- Insertion into the ordered-set model of a JavaScript `Set`: append if
not already present (a `Set` preserves insertion order). -/
def setInsert (s : List (List Char)) (x : List Char) : List (List Char) :=
  if s.contains x then s else s ++ [x]

/-- The source guard `!isNaN(parseInt(match[1]))`: JavaScript `parseInt`
returns `NaN` exactly when the string has no leading digit. -/
def parseIntIsNat (ds : List Char) : Bool :=
  match ds with
  | [] => false
  | c :: _ => c.isDigit

/-- Add the captures of one pattern to the ordered set, guarded by the
`parseInt` check of the source. -/
def addCaps (s : List (List Char)) (caps : List (List Char)) : List (List Char) :=
  caps.foldl (fun acc ds => if parseIntIsNat ds then setInsert acc ds else acc) s

/-- Keyword literal `closes`. -/
def closesLit : List Char := ['c', 'l', 'o', 's', 'e', 's']

/-- Keyword literal `fixes`. -/
def fixesLit : List Char := ['f', 'i', 'x', 'e', 's']

/-- Keyword literal `resolves`. -/
def resolvesLit : List Char := ['r', 'e', 's', 'o', 'l', 'v', 'e', 's']

/-- Keyword literal `fix`. -/
def fixLit : List Char := ['f', 'i', 'x']

/-- Keyword literal `close`. -/
def closeLit : List Char := ['c', 'l', 'o', 's', 'e']

/-- Keyword literal `resolve`. -/
def resolveLit : List Char := ['r', 'e', 's', 'o', 'l', 'v', 'e']

/-- `extractLinkedIssues` (part_001, lines 149-176): run the bare pattern
and the six keyword patterns in source order over the description,
inserting every capture into an insertion-ordered set, and return the set
as a list. -/
def extractLinkedIssues (body : String) : List String :=
  let cs := body.toList
  let allCaps := [bm cs, km closesLit cs, km fixesLit cs, km resolvesLit cs,
                  km fixLit cs, km closeLit cs, km resolveLit cs]
  (allCaps.foldl addCaps []).map fun ds => String.mk ds

/-- JavaScript `x || d` on a possibly absent string (`""` is falsy). -/
def jsOr (o : Option String) (d : String) : String :=
  match o with
  | some s => if s == "" then d else s
  | none => d

/-- JavaScript `x || null` on a possibly absent string. -/
def jsOrOpt (o : Option String) : Option String :=
  match o with
  | some s => if s == "" then none else some s
  | none => none

/-- JavaScript `x || y || null` on possibly absent strings. -/
def jsOrOpt2 (a b : Option String) : Option String :=
  match jsOrOpt a with
  | some s => some s
  | none => jsOrOpt b

/-- JavaScript `x || d` on a possibly absent number (`0` is falsy). -/
def jsOrNat (o : Option Nat) (d : Nat) : Nat :=
  match o with
  | some n => if n == 0 then d else n
  | none => d

/-- JavaScript truthiness of a possibly absent string. -/
def jsTruthy (o : Option String) : Bool :=
  match o with
  | some s => !(s == "")
  | none => false

/-- One row of the persisted `user_tokens` table. -/
structure TokenRow where
  userId : String
  provider : String
  accessToken : String
  updatedAt : String
  deriving Repr, DecidableEq

/-- Upsert with conflict key `user_id,provider`: replace the first row with
the same key, append when absent. -/
def upsertRow : List TokenRow → TokenRow → List TokenRow
  | [], r => [r]
  | x :: xs, r =>
    if x.userId == r.userId && x.provider == r.provider then r :: xs
    else x :: upsertRow xs r

/-- The authenticated principal (`supabase.auth.getUser`). -/
structure GHUser where
  id : String
  appMetadataProviders : Option (List String)
  identityProviders : Option (List String)
  deriving Repr, DecidableEq

/-- The ambient auth state: the current principal (absent when
`getUser` fails) and the provider token of the active session. -/
structure AuthState where
  user : Option GHUser
  providerToken : Option String
  deriving Repr, DecidableEq

/-- `user.app_metadata?.providers?.includes('github') ||
user.identities?.some(i => i.provider === 'github')`. -/
def hasGitHubIdentity (u : GHUser) : Bool :=
  (match u.appMetadataProviders with
   | some ps => ps.contains "github"
   | none => false) ||
  (match u.identityProviders with
   | some ps => ps.contains "github"
   | none => false)

/-- Message of the `Expired` error kind of the token cache. -/
def expiredConnMsg : String := "Your GitHub connection has expired. Please reconnect."

/-- Message of the `NotConnected` error kind of the token cache. -/
def notConnectedMsg : String := "Please connect your GitHub account to continue."

namespace TokenManager

/-- `TokenManager.store` (part_000, lines 19-26): upsert the token for
`(userId, "github")`, refreshing the updated-at timestamp. -/
def store (db : List TokenRow) (now userId token : String) : List TokenRow :=
  upsertRow db { userId := userId, provider := "github", accessToken := token, updatedAt := now }

/-- The `select access_token ... .single()` query of `retrieve`. -/
def lookupToken (db : List TokenRow) (userId provider : String) : Option String :=
  (db.find? fun r => r.userId == userId && r.provider == provider).map
    fun r => r.accessToken

/-- The persisted-cache half of `retrieve`: return the stored token when
present (and truthy), otherwise fail with the `Expired` message when the
principal has a GitHub identity linkage and the `NotConnected` message
otherwise. -/
def retrieveStored (user : GHUser) (db : List TokenRow) :
    Except String (String × List TokenRow) :=
  match lookupToken db user.id "github" with
  | some tok =>
    if tok == "" then
      .error (if hasGitHubIdentity user then expiredConnMsg else notConnectedMsg)
    else .ok (tok, db)
  | none =>
    .error (if hasGitHubIdentity user then expiredConnMsg else notConnectedMsg)

/-- `TokenManager.retrieve` (part_000, lines 28-54): a session-carried
provider token is stored (cache refresh) and returned immediately;
otherwise the persisted token is read; otherwise a distinguished error is
raised.  Returns the token together with the resulting table state. -/
def retrieve (auth : AuthState) (db : List TokenRow) (now : String) :
    Except String (String × List TokenRow) :=
  match auth.user with
  | none => .error "Authentication required"
  | some user =>
    match auth.providerToken with
    | some t =>
      if t == "" then retrieveStored user db
      else .ok (t, store db now user.id t)
    | none => retrieveStored user db

/-- `TokenManager.invalidate` (part_000, lines 56-63): delete the
persisted row for `(userId, "github")`. -/
def invalidate (db : List TokenRow) (userId : String) : List TokenRow :=
  db.filter fun r => !(r.userId == userId && r.provider == "github")

end TokenManager

/-- A rejection value of the identity check, as inspected by the catch
block of `getGitHubClient`: whether it is an `Error` instance, its
optional `status`, and its message. -/
structure JsError where
  isError : Bool
  status : Option Nat
  message : String
  deriving Repr, DecidableEq

/-- Message of the `Expired` error kind of the client factory. -/
def expiredAccessMsg : String := "Your GitHub access has expired. Please reconnect."

/-- Message of the `RateLimited` error kind. -/
def rateLimitedMsg : String := "GitHub API rate limit exceeded. Try again later."

/-- Message raised on a non-`Error` rejection. -/
def unknownAuthMsg : String := "An unknown error occurred while authenticating with GitHub"

/-- `getGitHubClient` (part_000, lines 66-91): retrieve a token, run the
identity check (abstracted as `checkRes`), and translate its failure into
a domain error, invalidating the cached token exactly in the `401` case.
Returns the outcome together with the resulting token-table state. -/
def getGitHubClient (auth : AuthState) (db : List TokenRow) (now : String)
    (checkRes : Except JsError Unit) : Except String String × List TokenRow :=
  match TokenManager.retrieve auth db now with
  | .error e => (.error e, db)
  | .ok (token, db1) =>
    match checkRes with
    | .ok _ => (.ok token, db1)
    | .error err =>
      if err.isError then
        if err.status == some 401 then
          (.error expiredAccessMsg,
            match auth.user with
            | some u => TokenManager.invalidate db1 u.id
            | none => db1)
        else if err.status == some 403 then (.error rateLimitedMsg, db1)
        else (.error ("GitHub API error: " ++ err.message), db1)
      else (.error unknownAuthMsg, db1)

/-- Raw commit-list item consumed by `getRepoActivity`. -/
structure RawActCommit where
  sha : String
  htmlUrl : String
  commitAuthorDate : Option String
  authorLogin : Option String
  commitAuthorName : Option String
  commitMessage : String
  deriving Repr, DecidableEq

/-- Commit record of a `GitHubActivity`. -/
structure ActCommit where
  sha : String
  url : String
  date : String
  author : Option String
  message : String
  files : List FileChange
  deriving Repr, DecidableEq

/-- The commit mapper of `getRepoActivity` (part_000, lines 151-165). -/
def mapActCommit (now : String) (commitFiles : String → List FileChange)
    (c : RawActCommit) : ActCommit :=
  { sha := c.sha
    url := c.htmlUrl
    date := jsOr c.commitAuthorDate now
    author := jsOrOpt2 c.authorLogin c.commitAuthorName
    message := c.commitMessage
    files := commitFiles c.sha }

/-- Raw pull-request-list item consumed by `getRepoActivity`. -/
structure RawActPR where
  id : Nat
  htmlUrl : String
  userLogin : Option String
  state : String
  title : String
  number : Nat
  closedAt : Option String
  mergedAt : Option String
  createdAt : String
  updatedAt : String
  deriving Repr, DecidableEq

/-- Pull-request record of a `GitHubActivity`. -/
structure ActPR where
  id : Nat
  url : String
  user : Option String
  state : String
  title : String
  number : Nat
  closed_at : Option String
  merged_at : Option String
  created_at : String
  updated_at : String
  files : List FileChange
  deriving Repr, DecidableEq

/-- The pull-request mapper of `getRepoActivity` (part_000, lines
167-187): note that `state` is copied from the raw API state unchanged. -/
def mapActPR (prFiles : Nat → List FileChange) (pr : RawActPR) : ActPR :=
  { id := pr.id
    url := pr.htmlUrl
    user := jsOrOpt pr.userLogin
    state := pr.state
    title := pr.title
    number := pr.number
    closed_at := pr.closedAt
    merged_at := pr.mergedAt
    created_at := pr.createdAt
    updated_at := pr.updatedAt
    files := prFiles pr.number }

/-- The activity bundle returned by `getRepoActivity`. -/
structure GitHubActivity where
  commits : List ActCommit
  pull_requests : List ActPR
  deriving Repr, DecidableEq

/-- `getRepoActivity` (part_000, lines 123-194).  The network boundary is
abstracted: `clientRes` and `userRes` are the client construction and the
authenticated-user lookup (either failing makes the surrounding try/catch
return null), `commitsRes` and `prsRes` are the two concurrent list
fetches, each with its own `.catch` that degrades a failure to the empty
list, and `commitFiles`/`prFiles` are the per-item diff fetches (total,
because their failures are caught inside and degrade to `[]`). -/
def getRepoActivity (fullName : String) (now : String)
    (clientRes : Except String Unit) (userRes : Except String String)
    (commitsRes : Except String (List RawActCommit))
    (prsRes : Except String (List RawActPR))
    (commitFiles : String → List FileChange)
    (prFiles : Nat → List FileChange) : Option GitHubActivity :=
  if fullName == "" then none
  else
    match clientRes with
    | .error _ => none
    | .ok _ =>
      match userRes with
      | .error _ => none
      | .ok login =>
        let username := login.toLower
        let commitsData := match commitsRes with | .ok l => l | .error _ => []
        let prsData := match prsRes with | .ok l => l | .error _ => []
        let commits := (commitsData.take 15).map (mapActCommit now commitFiles)
        let pullRequests :=
          ((prsData.filter fun pr =>
              match pr.userLogin with
              | some l => l.toLower == username
              | none => false).take 5).map (mapActPR prFiles)
        some { commits := commits, pull_requests := pullRequests }

/-- A label of the raw PR detail: either a plain string or an object with
an optional name. -/
inductive RawLabel where
  | str (s : String)
  | obj (name : Option String)
  deriving Repr, DecidableEq

/-- Raw PR detail consumed by `fetchPRData`. -/
structure RawPR where
  title : Option String
  body : Option String
  userLogin : Option String
  state : String
  mergedAt : Option String
  closedAt : Option String
  createdAt : String
  additions : Option Nat
  deletions : Option Nat
  changedFiles : Option Nat
  labels : Option (List RawLabel)
  deriving Repr, DecidableEq

/-- Raw PR-commit-list item consumed by `fetchPRData`. -/
structure RawPRCommit where
  commitMessage : Option String
  authorLogin : Option String
  commitAuthorName : Option String
  commitAuthorDate : Option String
  deriving Repr, DecidableEq

/-- Raw PR-file-list item consumed by `fetchPRData`. -/
structure RawPRFile where
  filename : String
  status : Option String
  additions : Option Nat
  deletions : Option Nat
  patch : Option String
  deriving Repr, DecidableEq

/-- Raw review-comment item consumed by `fetchPRData`. -/
structure RawReviewComment where
  userLogin : Option String
  body : Option String
  createdAt : Option String
  deriving Repr, DecidableEq

/-- Commit summary of a `PRData`. -/
structure PRCommit where
  message : String
  author : String
  date : String
  deriving Repr, DecidableEq

/-- File stat of a `PRData`. -/
structure PRFile where
  filename : String
  status : String
  additions : Nat
  deletions : Nat
  patch : Option String
  deriving Repr, DecidableEq

/-- Review comment of a `PRData`. -/
structure PRReviewComment where
  author : String
  body : String
  createdAt : String
  deriving Repr, DecidableEq

/-- The aggregate returned by `fetchPRData`. -/
structure PRData where
  title : String
  description : String
  author : String
  state : String
  createdAt : String
  mergedAt : Option String
  closedAt : Option String
  additions : Nat
  deletions : Nat
  changedFiles : Nat
  commits : List PRCommit
  files : List PRFile
  reviewComments : List PRReviewComment
  labels : List String
  linkedIssues : List String
  deriving Repr, DecidableEq

/-- The result-shaping return of `fetchPRData` (part_001, lines 105-137):
note the `state` derivation `pr.merged_at ? 'merged' : pr.state` and the
fallbacks applied field by field. -/
def buildPRData (pr : RawPR) (files : List RawPRFile) (commits : List RawPRCommit)
    (reviewComments : List RawReviewComment) (now : String) : PRData :=
  { title := jsOr pr.title ""
    description := jsOr pr.body ""
    author := jsOr pr.userLogin "Unknown"
    state := if jsTruthy pr.mergedAt then "merged" else pr.state
    createdAt := pr.createdAt
    mergedAt := pr.mergedAt
    closedAt := pr.closedAt
    additions := jsOrNat pr.additions 0
    deletions := jsOrNat pr.deletions 0
    changedFiles := jsOrNat pr.changedFiles files.length
    commits := commits.map fun c =>
      { message := jsOr c.commitMessage ""
        author := jsOr c.authorLogin (jsOr c.commitAuthorName "Unknown")
        date := jsOr c.commitAuthorDate now }
    files := files.map fun f =>
      { filename := f.filename
        status := jsOr f.status "modified"
        additions := jsOrNat f.additions 0
        deletions := jsOrNat f.deletions 0
        patch := jsOrOpt f.patch }
    reviewComments := reviewComments.map fun c =>
      { author := jsOr c.userLogin "Unknown"
        body := jsOr c.body ""
        createdAt := jsOr c.createdAt now }
    labels :=
      match pr.labels with
      | none => []
      | some ls =>
        (ls.map fun l =>
          match l with
          | .str s => s
          | .obj n => jsOr n "").filter fun s => !(s == "")
    linkedIssues := extractLinkedIssues (jsOr pr.body "") }

/-- `fetchPRData` (part_001, lines 46-144) over abstracted fetch
outcomes: PR detail, file list and commit list failures are fatal and
wrapped with a descriptive message; review-comment failures degrade to
the empty list. -/
def fetchPRData (prRes : Except String RawPR)
    (filesRes : Except String (List RawPRFile))
    (commitsRes : Except String (List RawPRCommit))
    (reviewCommentsRes : Except String (List RawReviewComment))
    (now : String) : Except String PRData :=
  match prRes with
  | .error e => .error ("Failed to fetch PR details: " ++ e)
  | .ok pr =>
    match filesRes with
    | .error e => .error ("Failed to fetch PR files: " ++ e)
    | .ok files =>
      match commitsRes with
      | .error e => .error ("Failed to fetch PR commits: " ++ e)
      | .ok commits =>
        let reviewComments :=
          match reviewCommentsRes with
          | .ok l => l
          | .error _ => []
        .ok (buildPRData pr files commits reviewComments now)

/-- The narrative artifact. -/
structure PRStory where
  summary : String
  technicalDetails : String
  impact : String
  keyChanges : List String
  complexity : String
  tags : List String
  deriving Repr, DecidableEq

/-- `[...new Set(l)]`: deduplicate keeping the first occurrence of each
element. -/
def dedupKeepFirst (l : List String) : List String :=
  l.foldl (fun acc s => if acc.contains s then acc else acc ++ [s]) []

/-- JavaScript `hay.includes(needle)` via the list scanner. -/
def inclAux (needle : List Char) : List Char → Bool
  | [] => needle.isEmpty
  | c :: cs => lhas needle (c :: cs) || inclAux needle cs

/-- JavaScript `hay.includes(needle)`. -/
def strIncludes (hay needle : String) : Bool :=
  inclAux needle.toList hay.toList

/-- `filename.split('.').pop()?.toLowerCase()`. -/
def lastDotSeg (s : String) : String :=
  ((s.splitOn ".").getLastD "").toLower

/-- `createFallbackAnalysis` (part_001, lines 391-429): the deterministic
rule-based analysis, embedded field by field. -/
def createFallbackAnalysis (prData : PRData) : PRStory :=
  let fileTypes := (prData.files.map fun f => lastDotSeg f.filename).filter
    fun s => !(s == "")
  let uniqueFileTypes := dedupKeepFirst fileTypes
  let isLargeChange := 500 < prData.additions + prData.deletions
  let isManyFiles := 10 < prData.changedFiles
  let hasTests := prData.files.any fun f =>
    strIncludes f.filename "test" || strIncludes f.filename "spec" ||
      strIncludes f.filename "__tests__"
  let complexity :=
    if isLargeChange ∨ isManyFiles then "high"
    else if 100 < prData.additions + prData.deletions then "medium"
    else "low"
  let keyChanges :=
    ["Modified " ++ toString prData.changedFiles ++ " file" ++
       (if prData.changedFiles ≠ 1 then "s" else ""),
     "Added " ++ toString prData.additions ++ " lines, removed " ++
       toString prData.deletions ++ " lines"]
    ++ (if hasTests then ["Includes test changes"] else [])
    ++ (if 1 < prData.commits.length then
          [toString prData.commits.length ++ " commits"] else [])
  let tags :=
    ((uniqueFileTypes.take 3).filter (fun s => !(s == ""))
      ++ (if hasTests then ["testing"] else [])
      ++ (if 0 < prData.labels.length then prData.labels.take 2 else [])
      ++ [prData.state]).filter fun s => !(s == "")
  { summary := "This PR " ++
      (if prData.state == "merged" then "implemented" else "proposes") ++
      " changes to " ++ toString prData.changedFiles ++ " files with " ++
      toString (prData.additions + prData.deletions) ++ " total line changes."
    technicalDetails := "The changes span " ++
      String.intercalate ", " uniqueFileTypes ++ " files and include " ++
      toString prData.commits.length ++ " commits. " ++
      (if hasTests then "Test files were also modified."
       else "No test changes detected.")
    impact := "This " ++ complexity ++
      " complexity change affects the codebase structure and " ++
      (if prData.state == "merged" then "has been" else "would be") ++
      " integrated into the main branch."
    keyChanges := keyChanges
    complexity := complexity
    tags := tags }

/-- `analyzePR` (part_001, lines 181-194): the backend cascade
(`tryAIServices`) is abstracted as an `Except`-valued outcome; any
failure resolves to the deterministic fallback. -/
def analyzePR (aiRes : Except String PRStory) (prData : PRData) : PRStory :=
  match aiRes with
  | .ok story => story
  | .error _ => createFallbackAnalysis prData

theorem lookupToken_store (db : List TokenRow) (now uid tok : String) :
    TokenManager.lookupToken (TokenManager.store db now uid tok) uid "github" =
      some tok := by
  unfold TokenManager.store TokenManager.lookupToken
  induction db with
  | nil => simp [upsertRow, List.find?]
  | cons x xs ih =>
    by_cases h : (x.userId == uid && x.provider == "github") = true
    · simp [upsertRow, h, List.find?]
    · simp only [upsertRow] at *
      rw [if_neg (by simpa using h)]
      simpa [List.find?, Bool.eq_false_iff.mpr h] using ih

/-- Claim C3: for every `PRData`, when every narrative backend fails
`analyzePR` resolves to the deterministic fallback (it is a total
function, so it cannot throw), and the fallback complexity is `high` when
`additions + deletions > 500` or `changedFiles > 10`, else `medium` when
`additions + deletions > 100`, else `low`. -/
theorem analyzePR_total_fallback : ∀ (e : String) (pd : PRData),
    analyzePR (.error e) pd = createFallbackAnalysis pd ∧
    (createFallbackAnalysis pd).complexity =
      (if 500 < pd.additions + pd.deletions ∨ 10 < pd.changedFiles then "high"
       else if 100 < pd.additions + pd.deletions then "medium" else "low") := by
  intro e pd
  exact ⟨rfl, rfl⟩

/-- Claim C1 (amended): `fetchPRData` derives the lifecycle state as
`merged` exactly when the merge timestamp is truthy (non-null and
nonempty), otherwise passing the raw API state through; `getRepoActivity`
instead copies the raw API state unchanged and exposes the merge
timestamp as a separate field, with no `merged` derivation. -/
theorem prState_merged_derivation :
    (∀ (pr : RawPR) files commits rcs now, pr.mergedAt = none →
        (buildPRData pr files commits rcs now).state = pr.state)
  ∧ (∀ (pr : RawPR) files commits rcs now t, pr.mergedAt = some t → t ≠ "" →
        (buildPRData pr files commits rcs now).state = "merged")
  ∧ (∀ (prFiles : Nat → List FileChange) (pr : RawActPR),
        (mapActPR prFiles pr).state = pr.state ∧
        (mapActPR prFiles pr).merged_at = pr.mergedAt) := by
  refine ⟨?_, ?_, ?_⟩
  · intro pr files commits rcs now h
    simp [buildPRData, jsTruthy, h]
  · intro pr files commits rcs now t h ht
    simp [buildPRData, jsTruthy, h, ht]
  · intro prFiles pr
    exact ⟨rfl, rfl⟩

/-- Witness for the claim C1 theorem at concrete inputs. -/
theorem prState_merged_derivation_witness :
    (buildPRData
      { title := some "t", body := none, userLogin := some "alice",
        state := "closed", mergedAt := some "2024-05-01T12:00:00Z",
        closedAt := some "2024-05-01T12:00:00Z", createdAt := "2024-04-30",
        additions := some 3, deletions := some 1, changedFiles := some 1,
        labels := none } [] [] [] "2024-06-01").state = "merged" :=
  prState_merged_derivation.2.1
    { title := some "t", body := none, userLogin := some "alice",
      state := "closed", mergedAt := some "2024-05-01T12:00:00Z",
      closedAt := some "2024-05-01T12:00:00Z", createdAt := "2024-04-30",
      additions := some 3, deletions := some 1, changedFiles := some 1,
      labels := none } [] [] [] "2024-06-01" "2024-05-01T12:00:00Z" rfl
    (by decide)

/-- Raw pull request exhibiting the missing `merged` derivation in
`getRepoActivity`: raw state `closed` with a non-null merge timestamp. -/
def c1CexPR : RawActPR :=
  { id := 1, htmlUrl := "u", userLogin := some "alice", state := "closed",
    title := "t", number := 5, closedAt := some "2024-05-01T12:00:00Z",
    mergedAt := some "2024-05-01T12:00:00Z", createdAt := "2024-04-30",
    updatedAt := "2024-05-01" }

/-- Counterexample to claim C1 as stated: the pull-request record built by
`getRepoActivity` keeps state `closed` even though its merge timestamp is
non-null, so the state field is not `merged` there. -/
theorem getRepoActivity_state_not_merged_cex :
    (mapActPR (fun _ => []) c1CexPR).merged_at = some "2024-05-01T12:00:00Z" ∧
    (mapActPR (fun _ => []) c1CexPR).state = "closed" ∧
    ("closed" : String) ≠ "merged" :=
  ⟨rfl, rfl, by decide⟩

/-- Claim C8: `parsePRUrl` (a total function) accepts the standard PR URL
returning its coordinates, returns `none` for an issues URL matching no
pattern, and also accepts the `pulls/N` alternative form. -/
theorem parsePRUrl_examples :
    parsePRUrl "https://github.com/acme/widgets/pull/42" =
        some { owner := "acme", repo := "widgets", prNumber := 42 }
  ∧ parsePRUrl "https://github.com/acme/widgets/issues/42" = none
  ∧ parsePRUrl "https://github.com/acme/widgets/pulls/7" =
        some { owner := "acme", repo := "widgets", prNumber := 7 } := by
  exact ⟨by decide, by decide, by decide⟩

/-- Claim C4: the token cache returns a session-carried token first
(refreshing the persisted cache), falls back to the persisted token
otherwise, round-trips a stored token, and distinguishes the `Expired`
and `NotConnected` error kinds by the prior identity linkage. -/
theorem tokenCache_retrieve_contract :
    (∀ (auth : AuthState) db now u t, auth.user = some u →
        auth.providerToken = some t → t ≠ "" →
        TokenManager.retrieve auth db now =
          .ok (t, TokenManager.store db now u.id t))
  ∧ (∀ (auth : AuthState) db now u tok, auth.user = some u →
        auth.providerToken = none →
        TokenManager.lookupToken db u.id "github" = some tok → tok ≠ "" →
        TokenManager.retrieve auth db now = .ok (tok, db))
  ∧ (∀ (auth : AuthState) db now now2 u tok, auth.user = some u →
        auth.providerToken = none → tok ≠ "" →
        TokenManager.retrieve auth (TokenManager.store db now2 u.id tok) now =
          .ok (tok, TokenManager.store db now2 u.id tok))
  ∧ (∀ (auth : AuthState) db now u, auth.user = some u →
        auth.providerToken = none →
        TokenManager.lookupToken db u.id "github" = none →
        TokenManager.retrieve auth db now =
          .error (if hasGitHubIdentity u then expiredConnMsg
                  else notConnectedMsg))
  ∧ expiredConnMsg ≠ notConnectedMsg := by
  refine ⟨?_, ?_, ?_, ?_, by decide⟩
  · intro auth db now u t hu ht hne
    simp [TokenManager.retrieve, hu, ht, hne]
  · intro auth db now u tok hu ht hlook hne
    simp [TokenManager.retrieve, TokenManager.retrieveStored, hu, ht, hlook, hne]
  · intro auth db now now2 u tok hu ht hne
    simp [TokenManager.retrieve, TokenManager.retrieveStored, hu, ht,
      lookupToken_store, hne]
  · intro auth db now u hu ht hlook
    simp [TokenManager.retrieve, TokenManager.retrieveStored, hu, ht, hlook]

/-- Witness for the claim C4 theorem: store then retrieve at concrete
inputs round-trips the stored token. -/
theorem tokenCache_retrieve_contract_witness :
    TokenManager.retrieve
        { user := some { id := "u1", appMetadataProviders := none,
                         identityProviders := none }, providerToken := none }
        (TokenManager.store [] "t0" "u1" "tok123") "t1" =
      .ok ("tok123", TokenManager.store [] "t0" "u1" "tok123") :=
  tokenCache_retrieve_contract.2.2.1
    { user := some { id := "u1", appMetadataProviders := none,
                     identityProviders := none }, providerToken := none }
    [] "t1" "t0"
    { id := "u1", appMetadataProviders := none, identityProviders := none }
    "tok123" rfl rfl (by decide)

/-- Claim C5: when the identity check of `getGitHubClient` fails with
status 401 the cached token is invalidated and the `Expired` error is
raised; with status 403 the `RateLimited` error is raised and the token
table is left unchanged; any other `Error` failure raises the upstream
message wrapped as a GitHub API error, also without invalidation. -/
theorem githubClient_check_errors :
    ∀ (auth : AuthState) db db1 now tok u, auth.user = some u →
      TokenManager.retrieve auth db now = .ok (tok, db1) →
      (∀ m, getGitHubClient auth db now (.error { isError := true, status := some 401, message := m }) =
          (.error expiredAccessMsg, TokenManager.invalidate db1 u.id))
      ∧ (∀ m, getGitHubClient auth db now (.error { isError := true, status := some 403, message := m }) =
          (.error rateLimitedMsg, db1))
      ∧ (∀ st m, st ≠ some 401 → st ≠ some 403 →
          getGitHubClient auth db now (.error { isError := true, status := st, message := m }) =
            (.error ("GitHub API error: " ++ m), db1)) := by
  intro auth db db1 now tok u hu hret
  refine ⟨?_, ?_, ?_⟩
  · intro m
    simp [getGitHubClient, hret, hu]
  · intro m
    simp [getGitHubClient, hret, hu]
  · intro st m h401 h403
    simp [getGitHubClient, hret, hu, h401, h403]

/-- Witness for the claim C5 theorem at concrete inputs. -/
theorem githubClient_check_errors_witness :
    getGitHubClient
        { user := some { id := "u1", appMetadataProviders := none,
                         identityProviders := none },
          providerToken := some "tk" }
        [] "t0"
        (.error { isError := true, status := some 500, message := "boom" }) =
      (.error ("GitHub API error: " ++ "boom"),
        TokenManager.store [] "t0" "u1" "tk") :=
  (githubClient_check_errors
    { user := some { id := "u1", appMetadataProviders := none,
                     identityProviders := none }, providerToken := some "tk" }
    [] (TokenManager.store [] "t0" "u1" "tk") "t0" "tk"
    { id := "u1", appMetadataProviders := none, identityProviders := none }
    rfl rfl).2.2 (some 500) "boom" (by decide) (by decide)

/-- Claim C6: in `getRepoActivity` the commit-list fetch and the PR-list
fetch fail independently: a failing fetch is equivalent to an empty
result for it, the function still returns an activity built from the
other branch (never `none` merely because one fetch failed), and `none`
arises only from a top-level failure such as client construction. -/
theorem getRepoActivity_fanout_isolation :
    ∀ (fullName now : String) userRes commitsRes prsRes cf pf
      (e e2 : String), fullName ≠ "" →
      (getRepoActivity fullName now (.ok ()) userRes (.error e) prsRes cf pf =
         getRepoActivity fullName now (.ok ()) userRes (.ok []) prsRes cf pf)
      ∧ (getRepoActivity fullName now (.ok ()) userRes commitsRes (.error e2) cf pf =
         getRepoActivity fullName now (.ok ()) userRes commitsRes (.ok []) cf pf)
      ∧ (∀ login, userRes = .ok login →
          getRepoActivity fullName now (.ok ()) userRes (.error e) prsRes cf pf ≠ none)
      ∧ (∀ clientErr : String,
          getRepoActivity fullName now (.error clientErr) userRes commitsRes prsRes cf pf = none) := by
  intro fullName now userRes commitsRes prsRes cf pf e e2 hfn
  refine ⟨?_, ?_, ?_, ?_⟩
  · rfl
  · cases commitsRes <;> rfl
  · intro login hlogin
    simp [getRepoActivity, hfn, hlogin]
  · intro clientErr
    simp [getRepoActivity, hfn]

/-- Witness for the claim C6 theorem at concrete inputs. -/
theorem getRepoActivity_fanout_isolation_witness :
    getRepoActivity "o/r" "t0" (.ok ()) (.ok "alice") (.error "down")
        (.ok []) (fun _ => []) (fun _ => []) ≠ none :=
  (getRepoActivity_fanout_isolation "o/r" "t0" (.ok "alice") (.ok [])
    (.ok []) (fun _ => []) (fun _ => []) "down" "down2"
    (by decide)).2.2.1 "alice" rfl

/-- Modelled from the spec wording of claim C2: the contribution of one
in-hunk line to the *original* accumulator, stated pointwise (to be
compared with the stateful loop `accumLines` of the source). -/
def specOrigContrib (line : List Char) : List Char :=
  if lhas ['@', '@'] line then []
  else if lhas diffGitLit line || lhas indexLit line then []
  else if lhas ['-'] line && !lhas ['-', '-', '-'] line then line.drop 1 ++ ['\n']
  else if lhas ['+'] line && !lhas ['+', '+', '+'] line then []
  else if lhas [' '] line then line.drop 1 ++ ['\n']
  else []

/-- Modelled from the spec wording of claim C2: the contribution of one
in-hunk line to the *changed* accumulator, stated pointwise. -/
def specChangedContrib (line : List Char) : List Char :=
  if lhas ['@', '@'] line then []
  else if lhas diffGitLit line || lhas indexLit line then []
  else if lhas ['-'] line && !lhas ['-', '-', '-'] line then []
  else if lhas ['+'] line && !lhas ['+', '+', '+'] line then line.drop 1 ++ ['\n']
  else if lhas [' '] line then line.drop 1 ++ ['\n']
  else []

theorem accumLines_true_char (lines : List (List Char)) :
    accumLines lines true =
      ((lines.map specOrigContrib).flatten,
       (lines.map specChangedContrib).flatten) := by
  induction lines with
  | nil => rfl
  | cons line rest ih =>
    simp only [accumLines, List.map_cons, List.flatten_cons, specOrigContrib,
      specChangedContrib, Bool.not_true, Bool.false_or, ih]
    split_ifs <;> simp_all [List.append_assoc]

theorem lhas_single {a : Char} {l : List Char} (h : lhas [a] l = true) :
    ∃ t, l = a :: t := by
  cases l with
  | nil => simp at h
  | cons c cs =>
    simp at h
    exact ⟨cs, by rw [h]⟩

theorem specOrigContrib_plus {line : List Char} (h : lhas ['+'] line = true) :
    specOrigContrib line = [] := by
  obtain ⟨t, rfl⟩ := lhas_single h
  simp [specOrigContrib, diffGitLit, indexLit]

theorem specChangedContrib_plus {line : List Char} (h : lhas ['+'] line = true)
    (h3 : lhas ['+', '+', '+'] line = false) :
    specChangedContrib line = line.drop 1 ++ ['\n'] := by
  obtain ⟨t, rfl⟩ := lhas_single h
  simp at h3
  simp [specChangedContrib, diffGitLit, indexLit, h3]

theorem specOrigContrib_space {line : List Char} (h : lhas [' '] line = true) :
    specOrigContrib line = line.drop 1 ++ ['\n'] := by
  obtain ⟨t, rfl⟩ := lhas_single h
  simp [specOrigContrib, diffGitLit, indexLit]

theorem specChangedContrib_space {line : List Char} (h : lhas [' '] line = true) :
    specChangedContrib line = line.drop 1 ++ ['\n'] := by
  obtain ⟨t, rfl⟩ := lhas_single h
  simp [specChangedContrib, diffGitLit, indexLit]

theorem accumLines_context_eq (lines : List (List Char))
    (h : ∀ l ∈ lines, lhas [' '] l = true) :
    (accumLines lines true).1 = (accumLines lines true).2 := by
  rw [accumLines_true_char]
  have hmaps : lines.map specOrigContrib = lines.map specChangedContrib :=
    List.map_congr_left fun l hl => by
      rw [specOrigContrib_space (h l hl), specChangedContrib_space (h l hl)]
  simp [hmaps]

/-- Claim C2: inside a hunk, a `-` line (not `---`) contributes its
remainder to the original accumulator only, a `+` line (not `+++`) to the
changed accumulator only, and a space line to both; consequently a hunk
with only `+` content lines accumulates an empty original and the
concatenated added lines, and an additive-only diff emits an empty
original string. -/
theorem diffParser_line_classification :
    (∀ lines : List (List Char), accumLines lines true =
        ((lines.map specOrigContrib).flatten,
         (lines.map specChangedContrib).flatten))
  ∧ (∀ lines : List (List Char),
        (∀ l ∈ lines, lhas ['+'] l = true ∧ lhas ['+', '+', '+'] l = false) →
        accumLines lines true =
          ([], (lines.map fun l => l.drop 1 ++ ['\n']).flatten))
  ∧ (∀ lines : List (List Char), (∀ l ∈ lines, lhas [' '] l = true) →
        (accumLines lines true).1 = (accumLines lines true).2)
  ∧ extractFileChanges
      "diff --git a/f.txt b/f.txt\n@@ -0,0 +1,2 @@\n+hello\n+world" =
      [{ fileName := "f.txt", original := "", changed := "hello\nworld" }] := by
  refine ⟨accumLines_true_char, ?_, accumLines_context_eq, by decide⟩
  intro lines h
  rw [accumLines_true_char]
  have ho : lines.map specOrigContrib = lines.map fun _ => ([] : List Char) :=
    List.map_congr_left fun l hl => specOrigContrib_plus (h l hl).1
  have hc : lines.map specChangedContrib = lines.map fun l => l.drop 1 ++ ['\n'] :=
    List.map_congr_left fun l hl => specChangedContrib_plus (h l hl).1 (h l hl).2
  rw [ho, hc]
  simp [List.flatten_eq_nil_iff]

/-- Witness for the claim C2 theorem at concrete inputs. -/
theorem diffParser_line_classification_witness :
    accumLines [['+', 'a']] true =
      ([], ([['+', 'a']].map fun l => l.drop 1 ++ ['\n']).flatten) ∧
    (accumLines [[' ', 'x']] true).1 = (accumLines [[' ', 'x']] true).2 :=
  ⟨diffParser_line_classification.2.1 [['+', 'a']] (by decide),
   diffParser_line_classification.2.2.1 [[' ', 'x']] (by decide)⟩

theorem jsTrim_ws_decomp (cs : List Char) :
    ∃ pre post, (∀ c ∈ pre, isJsWS c = true) ∧ (∀ c ∈ post, isJsWS c = true) ∧
      cs = pre ++ jsTrim cs ++ post := by
  refine ⟨cs.takeWhile isJsWS,
    ((cs.dropWhile isJsWS).reverse.takeWhile isJsWS).reverse,
    fun c hc => List.mem_takeWhile_imp hc,
    fun c hc => List.mem_takeWhile_imp (List.mem_reverse.mp hc), ?_⟩
  conv_lhs => rw [← List.takeWhile_append_dropWhile isJsWS cs]
  rw [List.append_assoc]
  congr 1
  conv_lhs => rw [← List.reverse_reverse (cs.dropWhile isJsWS),
    ← List.takeWhile_append_dropWhile isJsWS (cs.dropWhile isJsWS).reverse]
  rw [List.reverse_append]
  rfl

theorem jsTrim_no_edge_ws (cs : List Char) :
    (∀ c, (jsTrim cs).head? = some c → isJsWS c = false) ∧
    (∀ c, (jsTrim cs).getLast? = some c → isJsWS c = false) := by
  constructor
  · intro c hc
    rw [jsTrim, List.head?_reverse] at hc
    generalize hd0 : (cs.dropWhile isJsWS).reverse = d at hc
    have hne : d.dropWhile isJsWS ≠ [] := by
      intro hnil
      rw [hnil] at hc
      simp at hc
    have h1 : (d.dropWhile isJsWS).getLast? = d.getLast? := by
      conv_rhs => rw [← List.takeWhile_append_dropWhile isJsWS d]
      rw [List.getLast?_append, Option.or_of_isSome (List.getLast?_isSome.mpr hne)]
    rw [h1, ← hd0, List.getLast?_reverse] at hc
    have hd2 := List.head?_dropWhile_not isJsWS cs
    rw [hc] at hd2
    exact hd2
  · intro c hc
    rw [jsTrim, List.getLast?_reverse] at hc
    have hd := List.head?_dropWhile_not isJsWS (cs.dropWhile isJsWS).reverse
    rw [hc] at hd
    exact hd

theorem extractFileChanges_emit (diff : String) (fc : FileChange)
    (h : fc ∈ extractFileChanges diff) :
    ∃ sec ∈ splitBefore diffGitLit diff.toList, ∃ g1 g2,
      scanHeader sec = some (g1, g2) ∧
      fc = { fileName := String.mk (if g2.isEmpty then g1 else g2),
             original := String.mk (jsTrim (accumLines (splitNl sec) false).1),
             changed := String.mk (jsTrim (accumLines (splitNl sec) false).2) } := by
  unfold extractFileChanges at h
  split at h
  case isTrue => simp at h
  case isFalse =>
    rw [List.mem_filterMap] at h
    obtain ⟨sec, hsec, hf⟩ := h
    refine ⟨sec, hsec, ?_⟩
    revert hf
    cases hscan : scanHeader sec with
    | none => intro hf; simp at hf
    | some pair =>
      obtain ⟨g1, g2⟩ := pair
      intro hf
      simp at hf
      refine ⟨g1, g2, rfl, ?_⟩
      rw [← hf]
      simp [List.isEmpty_iff]

/-- Claim C7 (amended): every `FileChange` emitted by
`extractFileChanges` carries exactly the `jsTrim` of the two strings
accumulated over its section, where `jsTrim` removes whitespace from
BOTH ends and nothing else — it strips only whitespace characters
(decomposition conjunct), it strips all of them from either end
(maximality conjunct), so the leading whitespace of the first
reconstructed line is removed too, not only trailing whitespace; for a
context-only segment both emitted strings are still equal, both
equalling the context text trimmed at both ends. -/
theorem diffParser_trim_behavior :
    (∀ cs : List Char, ∃ pre post, (∀ c ∈ pre, isJsWS c = true) ∧
        (∀ c ∈ post, isJsWS c = true) ∧ cs = pre ++ jsTrim cs ++ post)
  ∧ (∀ cs : List Char,
        (∀ c, (jsTrim cs).head? = some c → isJsWS c = false) ∧
        (∀ c, (jsTrim cs).getLast? = some c → isJsWS c = false))
  ∧ (∀ (diff : String) (fc : FileChange), fc ∈ extractFileChanges diff →
        ∃ sec ∈ splitBefore diffGitLit diff.toList, ∃ g1 g2,
          scanHeader sec = some (g1, g2) ∧
          fc = { fileName := String.mk (if g2.isEmpty then g1 else g2),
                 original := String.mk (jsTrim (accumLines (splitNl sec) false).1),
                 changed := String.mk (jsTrim (accumLines (splitNl sec) false).2) })
  ∧ (∀ lines : List (List Char), (∀ l ∈ lines, lhas [' '] l = true) →
        String.mk (jsTrim (accumLines lines true).1) =
          String.mk (jsTrim (accumLines lines true).2))
  ∧ extractFileChanges "diff --git a/f b/f\n@@ -1,2 +1,2 @@\n   a\n b" =
      [{ fileName := "f", original := "a\nb", changed := "a\nb" }] := by
  refine ⟨jsTrim_ws_decomp, jsTrim_no_edge_ws, extractFileChanges_emit, ?_,
    by decide⟩
  intro lines h
  rw [accumLines_context_eq lines h]

/-- Witness for the claim C7 theorem at concrete inputs. -/
theorem diffParser_trim_behavior_witness :
    isJsWS 'a' = false ∧
    (∃ sec ∈ splitBefore diffGitLit
        ("diff --git a/f b/f\n@@ -1,2 +1,2 @@\n+  x" : String).toList,
      ∃ g1 g2, scanHeader sec = some (g1, g2) ∧
        ({ fileName := "f", original := "", changed := "x" } : FileChange) =
          { fileName := String.mk (if g2.isEmpty then g1 else g2),
            original := String.mk (jsTrim (accumLines (splitNl sec) false).1),
            changed := String.mk (jsTrim (accumLines (splitNl sec) false).2) }) ∧
    String.mk (jsTrim (accumLines [[' ', 'x']] true).1) =
      String.mk (jsTrim (accumLines [[' ', 'x']] true).2) :=
  ⟨(diffParser_trim_behavior.2.1 [' ', 'a']).1 'a' (by decide),
   diffParser_trim_behavior.2.2.1 "diff --git a/f b/f\n@@ -1,2 +1,2 @@\n+  x"
     { fileName := "f", original := "", changed := "x" } (by decide),
   diffParser_trim_behavior.2.2.2.1 [[' ', 'x']] (by decide)⟩

/-- Counterexample to claim C7 as stated: for the added line `+  x` the
changed accumulator is `"  x\n"`, whose trailing-whitespace-only trim
would be `"  x"`, but the emitted string is `"x"` — the leading
whitespace of the first reconstructed line is removed as well. -/
theorem diffParser_trailing_only_cex :
    (extractFileChanges "diff --git a/f b/f\n@@ -1,2 +1,2 @@\n+  x").map
        FileChange.changed = ["x"] ∧
    ¬ ((extractFileChanges "diff --git a/f b/f\n@@ -1,2 +1,2 @@\n+  x").map
        FileChange.changed = ["  x"]) :=
  ⟨by decide, by decide⟩

theorem tryHash_eq_none_of_ne {c : Char} (h : c ≠ '#') (cs : List Char) :
    tryHash (c :: cs) = none := by
  unfold tryHash
  split
  case h_1 r heq =>
    injection heq with h1 h2
    exact absurd h1 h
  case h_2 => rfl

theorem tryHash_cons_hash (r : List Char) :
    tryHash ('#' :: r) =
      if (r.takeWhile Char.isDigit).isEmpty then none
      else some (r.takeWhile Char.isDigit, r.dropWhile Char.isDigit) := rfl

theorem tryHash_some_hash {c : Char} {cs : List Char} {p}
    (h : tryHash (c :: cs) = some p) : c = '#' := by
  by_contra hne
  rw [tryHash_eq_none_of_ne hne] at h
  exact absurd h (by simp)

theorem tryHash_some_takeWhile {c : Char} {cs : List Char} {p}
    (h : tryHash (c :: cs) = some p) :
    (cs.takeWhile Char.isDigit).isEmpty = false := by
  have hc := tryHash_some_hash h
  subst hc
  by_contra h0
  have h0' : (cs.takeWhile Char.isDigit).isEmpty = true := by simpa using h0
  rw [tryHash_cons_hash, if_pos h0'] at h
  exact absurd h (by simp)

theorem tryHash_some_length {c : Char} {cs ds rest : List Char}
    (h : tryHash (c :: cs) = some (ds, rest)) : rest.length ≤ cs.length := by
  have hc := tryHash_some_hash h
  subst hc
  rw [tryHash_cons_hash] at h
  split at h
  case isTrue => exact absurd h (by simp)
  case isFalse =>
    have : rest = cs.dropWhile Char.isDigit := by cases h; rfl
    rw [this]
    exact dropWhile_length_le _ _

theorem tryHash_length (c : Char) (cs ds rest : List Char) :
    tryHash (c :: cs) = some (ds, rest) → rest.length ≤ cs.length :=
  fun h => tryHash_some_length h

theorem bm_cons_of_none {c : Char} {cs : List Char}
    (h : tryHash (c :: cs) = none) : bm (c :: cs) = bm cs := by
  simp [bm, scanAll, h]

theorem bm_cons_hash {r : List Char}
    (h : (r.takeWhile Char.isDigit).isEmpty = false) :
    bm ('#' :: r) =
      r.takeWhile Char.isDigit :: bm (r.dropWhile Char.isDigit) := by
  have hstep : bm ('#' :: r) =
      r.takeWhile Char.isDigit ::
        scanAll tryHash r.length (r.dropWhile Char.isDigit) := by
    simp [bm, scanAll, tryHash_cons_hash, h]
  rw [hstep]
  congr 1
  exact scanAll_mono tryHash tryHash_length r.length _ _
    (dropWhile_length_le _ _) le_rfl

theorem bm_append_no_hash {a : List Char} (b : List Char)
    (h : ∀ c ∈ a, c ≠ '#') : bm (a ++ b) = bm b := by
  induction a with
  | nil => rfl
  | cons c a' ih =>
    have hc : c ≠ '#' := h c (by simp)
    rw [List.cons_append, bm_cons_of_none (tryHash_eq_none_of_ne hc _)]
    exact ih fun x hx => h x (by simp [hx])

theorem bm_mem_aux : ∀ (n : Nat) (cs : List Char), cs.length ≤ n →
    ∀ ds ∈ bm cs, ds ≠ [] ∧ ∀ c ∈ ds, c.isDigit = true := by
  intro n
  induction n with
  | zero =>
    intro cs hlen ds hds
    cases cs with
    | nil => simp [bm, scanAll] at hds
    | cons c cs' => simp at hlen
  | succ n ih =>
    intro cs hlen ds hds
    cases cs with
    | nil => simp [bm, scanAll] at hds
    | cons c cs' =>
      cases htry : tryHash (c :: cs') with
      | none =>
        rw [bm_cons_of_none htry] at hds
        exact ih cs' (by simp at hlen; omega) ds hds
      | some pair =>
        have hc := tryHash_some_hash htry
        subst hc
        have hne := tryHash_some_takeWhile htry
        rw [bm_cons_hash hne] at hds
        rcases List.mem_cons.mp hds with hds | hds
        · subst hds
          refine ⟨by simpa [List.isEmpty_eq_false] using hne,
            fun c hc => List.mem_takeWhile_imp hc⟩
        · refine ih (cs'.dropWhile Char.isDigit) ?_ ds hds
          have := dropWhile_length_le Char.isDigit cs'
          simp at hlen
          omega

theorem bm_mem {cs ds : List Char} (h : ds ∈ bm cs) :
    ds ≠ [] ∧ ∀ c ∈ ds, c.isDigit = true :=
  bm_mem_aux cs.length cs le_rfl ds h

theorem bm_cons_sup (c : Char) (cs : List Char) {x : List Char}
    (hx : x ∈ bm cs) : x ∈ bm (c :: cs) := by
  cases htry : tryHash (c :: cs) with
  | none => rw [bm_cons_of_none htry]; exact hx
  | some pair =>
    have hc := tryHash_some_hash htry
    subst hc
    have hne := tryHash_some_takeWhile htry
    rw [bm_cons_hash hne]
    have hnohash : ∀ ch ∈ cs.takeWhile Char.isDigit, ch ≠ '#' := by
      intro ch hch h0
      have hdig := List.mem_takeWhile_imp hch
      rw [h0] at hdig
      exact absurd hdig (by decide)
    have hbm : bm cs = bm (cs.dropWhile Char.isDigit) := by
      conv_lhs => rw [← List.takeWhile_append_dropWhile Char.isDigit cs]
      exact bm_append_no_hash _ hnohash
    rw [hbm] at hx
    exact List.mem_cons_of_mem _ hx

theorem takeWhile_append_split {α : Type} (p : α → Bool) (a b : List α)
    (ha : ∀ c ∈ a, p c = true) (hb : ∀ c, b.head? = some c → p c = false) :
    (a ++ b).takeWhile p = a ∧ (a ++ b).dropWhile p = b := by
  induction a with
  | nil =>
    cases b with
    | nil => exact ⟨rfl, rfl⟩
    | cons c bs =>
      have hc := hb c rfl
      simp [List.takeWhile_cons, List.dropWhile_cons, hc]
  | cons x a' ih =>
    have hx := ha x (by simp)
    obtain ⟨h1, h2⟩ := ih (fun c hc => ha c (by simp [hc]))
    simp [List.takeWhile_cons, List.dropWhile_cons, hx, h1, h2]

theorem ciHas_take_toLower : ∀ (kw cs : List Char), ciHas kw cs = true →
    (cs.take kw.length).map Char.toLower = kw := by
  intro kw
  induction kw with
  | nil => intro cs h; simp
  | cons p ps ih =>
    intro cs h
    cases cs with
    | nil => simp [ciHas] at h
    | cons c cs' =>
      simp [ciHas] at h
      simp [List.take_succ_cons, h.1, ih cs' h.2]

theorem tryKwTail_decomp {r1 ds rest : List Char}
    (h : tryKwTail r1 = some (ds, rest)) :
    ∃ w, r1 = w ++ '#' :: (ds ++ rest) ∧ (∀ c ∈ w, isJsWS c = true) ∧
      ds ≠ [] ∧ (∀ c ∈ ds, c.isDigit = true) ∧
      (∀ c, rest.head? = some c → c.isDigit = false) := by
  unfold tryKwTail at h
  split at h
  case isTrue => exact absurd h (by simp)
  case isFalse hws =>
    revert h
    split
    case h_2 => intro h; exact absurd h (by simp)
    case h_1 r3 heq =>
      intro h
      split at h
      case isTrue => exact absurd h (by simp)
      case isFalse hdse =>
        have hds : ds = r3.takeWhile Char.isDigit := by cases h; rfl
        have hrest : rest = r3.dropWhile Char.isDigit := by cases h; rfl
        refine ⟨r1.takeWhile isJsWS, ?_,
          fun c hc => List.mem_takeWhile_imp hc, ?_,
          fun c hc => List.mem_takeWhile_imp (hds ▸ hc), ?_⟩
        · conv_lhs => rw [← List.takeWhile_append_dropWhile isJsWS r1]
          rw [heq, hds, hrest, List.takeWhile_append_dropWhile]
        · rw [hds]
          simpa [List.isEmpty_eq_false] using hdse
        · intro c hc
          have hd := List.head?_dropWhile_not Char.isDigit r3
          rw [← hrest, hc] at hd
          exact hd

theorem tryKw_decomp {kw cs ds rest : List Char} (hkw : ∀ c ∈ kw, c ≠ '#')
    (h : tryKw kw cs = some (ds, rest)) :
    ∃ pre, cs = pre ++ '#' :: (ds ++ rest) ∧ (∀ c ∈ pre, c ≠ '#') ∧
      ds ≠ [] ∧ (∀ c ∈ ds, c.isDigit = true) ∧
      (∀ c, rest.head? = some c → c.isDigit = false) := by
  unfold tryKw at h
  split at h
  case isFalse => exact absurd h (by simp)
  case isTrue hci =>
    obtain ⟨w, hw1, hw2, hd1, hd2, hr⟩ := tryKwTail_decomp h
    refine ⟨cs.take kw.length ++ w, ?_, ?_, hd1, hd2, hr⟩
    · conv_lhs => rw [← List.take_append_drop kw.length cs]
      rw [hw1, List.append_assoc]
    · intro c hc h0
      subst h0
      rcases List.mem_append.mp hc with hc | hc
      · have hmap := ciHas_take_toLower kw cs hci
        have hmem : Char.toLower '#' ∈ kw :=
          hmap ▸ List.mem_map_of_mem Char.toLower hc
        rw [show Char.toLower '#' = '#' from rfl] at hmem
        exact hkw '#' hmem rfl
      · have := hw2 '#' hc
        exact absurd this (by decide)

theorem tryKw_length (kw : List Char) (c : Char) (cs ds rest : List Char) :
    tryKw kw (c :: cs) = some (ds, rest) → rest.length ≤ cs.length := by
  intro h
  have := tryKw_some_length h
  simp at this
  omega

theorem km_cons_of_none {kw : List Char} {c : Char} {cs : List Char}
    (h : tryKw kw (c :: cs) = none) : km kw (c :: cs) = km kw cs := by
  simp [km, scanAll, h]

theorem km_cons_of_some {kw : List Char} {c : Char} {cs ds rest : List Char}
    (h : tryKw kw (c :: cs) = some (ds, rest)) :
    km kw (c :: cs) = ds :: km kw rest := by
  have hstep : km kw (c :: cs) = ds :: scanAll (tryKw kw) cs.length rest := by
    simp [km, scanAll, h]
  rw [hstep]
  congr 1
  exact scanAll_mono (tryKw kw) (tryKw_length kw) cs.length _ _
    (tryKw_length kw c cs ds rest h) le_rfl

theorem km_sub_bm_aux (kw : List Char) (hkw : ∀ c ∈ kw, c ≠ '#') :
    ∀ (n : Nat) (cs : List Char), cs.length ≤ n →
      ∀ x ∈ km kw cs, x ∈ bm cs := by
  intro n
  induction n with
  | zero =>
    intro cs hlen x hx
    cases cs with
    | nil => simp [km, scanAll] at hx
    | cons c cs' => simp at hlen
  | succ n ih =>
    intro cs hlen x hx
    cases cs with
    | nil => simp [km, scanAll] at hx
    | cons c cs' =>
      cases htry : tryKw kw (c :: cs') with
      | none =>
        rw [km_cons_of_none htry] at hx
        exact bm_cons_sup c cs' (ih cs' (by simp at hlen; omega) x hx)
      | some pair =>
        obtain ⟨ds, rest⟩ := pair
        rw [km_cons_of_some htry] at hx
        obtain ⟨pre, hdecomp, hpre, hd1, hd2, hrest⟩ := tryKw_decomp hkw htry
        obtain ⟨hsp1, hsp2⟩ := takeWhile_append_split Char.isDigit ds rest hd2 hrest
        have hne : ((ds ++ rest).takeWhile Char.isDigit).isEmpty = false := by
          rw [hsp1]
          simpa [List.isEmpty_eq_false] using hd1
        have hbm : bm (c :: cs') = ds :: bm rest := by
          rw [hdecomp, bm_append_no_hash _ hpre, bm_cons_hash hne, hsp1, hsp2]
        rw [hbm]
        rcases List.mem_cons.mp hx with hx | hx
        · exact hx ▸ List.mem_cons_self _ _
        · have hlt := tryKw_some_length htry
          have hlen2 : rest.length ≤ n := by simp at hlen hlt; omega
          exact List.mem_cons_of_mem _ (ih rest hlen2 x hx)

theorem km_sub_bm (kw : List Char) (cs : List Char) (hkw : ∀ c ∈ kw, c ≠ '#')
    {x : List Char} (hx : x ∈ km kw cs) : x ∈ bm cs :=
  km_sub_bm_aux kw hkw cs.length cs le_rfl x hx

theorem mem_foldl_setInsert (l : List (List Char)) (s : List (List Char))
    (x : List Char) : x ∈ l.foldl setInsert s ↔ x ∈ s ∨ x ∈ l := by
  induction l generalizing s with
  | nil => simp
  | cons c cs ih =>
    simp only [List.foldl_cons, ih, List.mem_cons]
    unfold setInsert
    split
    case isTrue hc =>
      have hcs : c ∈ s := by simpa using hc
      constructor
      · intro h
        rcases h with h | h
        · exact Or.inl h
        · exact Or.inr (Or.inr h)
      · intro h
        rcases h with h | h | h
        · exact Or.inl h
        · exact Or.inl (h ▸ hcs)
        · exact Or.inr h
    case isFalse hc =>
      simp only [List.mem_append, List.mem_singleton]
      constructor
      · intro h
        rcases h with (h | h) | h
        · exact Or.inl h
        · exact Or.inr (Or.inl h)
        · exact Or.inr (Or.inr h)
      · intro h
        rcases h with h | h | h
        · exact Or.inl (Or.inl h)
        · exact Or.inl (Or.inr h)
        · exact Or.inr h

theorem addCaps_of_subset (s caps : List (List Char))
    (hsub : ∀ x ∈ caps, x ∈ s) : addCaps s caps = s := by
  induction caps with
  | nil => rfl
  | cons c cs ih =>
    have hc : c ∈ s := hsub c (by simp)
    have hstep : (if parseIntIsNat c = true then setInsert s c else s) = s := by
      split
      · unfold setInsert
        rw [if_pos (by simpa using hc)]
      · rfl
    simp only [addCaps, List.foldl_cons] at *
    rw [hstep]
    exact ih fun x hx => hsub x (by simp [hx])

theorem addCaps_guard_true (s caps : List (List Char))
    (hg : ∀ x ∈ caps, parseIntIsNat x = true) :
    addCaps s caps = caps.foldl setInsert s := by
  induction caps generalizing s with
  | nil => rfl
  | cons c cs ih =>
    simp only [addCaps, List.foldl_cons] at *
    rw [if_pos (hg c (by simp))]
    exact ih _ fun x hx => hg x (by simp [hx])

theorem foldl_setInsert_nodup (l : List (List Char)) (s : List (List Char))
    (hs : s.Nodup) : (l.foldl setInsert s).Nodup := by
  induction l generalizing s with
  | nil => exact hs
  | cons c cs ih =>
    apply ih
    unfold setInsert
    split
    case isTrue => exact hs
    case isFalse hc =>
      have hnm : c ∉ s := by
        intro hmem
        exact hc (by simpa using hmem)
      simp [List.nodup_append, hs, hnm]

/-- Claim C9: the linked-issue list is the insertion-ordered
deduplication of the bare `#N` captures in description order (the keyword
patterns only re-add captures the bare pattern already found), hence it
is duplicate-free and ordered by first appearance; in particular the
spec example yields exactly `["12", "7"]`. -/
theorem extractLinkedIssues_spec :
    extractLinkedIssues "Fixes #12 and relates to #7, closes #12" = ["12", "7"]
  ∧ (∀ body : String, extractLinkedIssues body =
      ((bm body.toList).foldl setInsert []).map fun ds => String.mk ds)
  ∧ (∀ body : String, (extractLinkedIssues body).Nodup) := by
  have hgen : ∀ body : String, extractLinkedIssues body =
      ((bm body.toList).foldl setInsert []).map fun ds => String.mk ds := by
    intro body
    unfold extractLinkedIssues
    simp only [List.foldl_cons, List.foldl_nil]
    have h0 : addCaps [] (bm body.toList) =
        (bm body.toList).foldl setInsert [] := by
      refine addCaps_guard_true _ _ fun x hx => ?_
      obtain ⟨hne, hdig⟩ := bm_mem hx
      cases x with
      | nil => exact absurd rfl hne
      | cons c cs => simpa [parseIntIsNat] using hdig c (by simp)
    rw [h0]
    have hsub : ∀ kw : List Char, (∀ c ∈ kw, c ≠ '#') →
        ∀ x ∈ km kw body.toList, x ∈ (bm body.toList).foldl setInsert [] := by
      intro kw hkw x hx
      exact (mem_foldl_setInsert _ _ _).mpr (Or.inr (km_sub_bm kw _ hkw hx))
    rw [addCaps_of_subset _ _ (hsub closesLit (by decide)),
      addCaps_of_subset _ _ (hsub fixesLit (by decide)),
      addCaps_of_subset _ _ (hsub resolvesLit (by decide)),
      addCaps_of_subset _ _ (hsub fixLit (by decide)),
      addCaps_of_subset _ _ (hsub closeLit (by decide)),
      addCaps_of_subset _ _ (hsub resolveLit (by decide))]
  refine ⟨by decide, hgen, ?_⟩
  intro body
  rw [hgen body]
  exact List.Nodup.map (fun a b hab => congrArg String.data hab)
    (foldl_setInsert_nodup _ _ List.nodup_nil)

/-- The literal `https://`. -/
def httpsLit : List Char := ['h', 't', 't', 'p', 's', ':', '/', '/']

theorem scanP_cons_ne {kw : List Char} {anchor : Anchor} {c : Char}
    {cs : List Char} (h : ('g' == c) = false) :
    scanP kw anchor (c :: cs) = scanP kw anchor cs := by
  have htry : tryAtP kw anchor (c :: cs) = none := by
    unfold tryAtP
    simp [ghLit, h]
  simp [scanP, htry]

theorem scanP_skip (kw : List Char) (anchor : Anchor) (pre : List Char)
    (hpre : ∀ c ∈ pre, ('g' == c) = false) (X : List Char) :
    scanP kw anchor (pre ++ X) = scanP kw anchor X := by
  induction pre with
  | nil => rfl
  | cons c p ih =>
    rw [List.cons_append, scanP_cons_ne (hpre c (by simp))]
    exact ih fun x hx => hpre x (by simp [hx])

theorem scanP_of_tryAtP {kw : List Char} {anchor : Anchor} {cs : List Char}
    {r : PRRef} (h : tryAtP kw anchor cs = some r) (hne : cs ≠ []) :
    scanP kw anchor cs = some r := by
  cases cs with
  | nil => exact absurd rfl hne
  | cons c cs' => simp [scanP, h]

theorem segTake_append {a r : List Char} (ha1 : a ≠ [])
    (ha2 : ∀ c ∈ a, (c == '/') = false) :
    segTake (a ++ '/' :: r) = some (a, r) := by
  obtain ⟨h1, h2⟩ := takeWhile_append_split (fun c => !(c == '/')) a ('/' :: r)
    (fun c hc => by simp [ha2 c hc])
    (fun c hc => by
      simp at hc
      subst hc
      decide)
  simp [segTake, h1, h2, ha1]

theorem tryAtP_github (owner repo N s2 : List Char)
    (ho1 : owner ≠ []) (ho2 : ∀ c ∈ owner, (c == '/') = false)
    (hr1 : repo ≠ []) (hr2 : ∀ c ∈ repo, (c == '/') = false)
    (hN1 : N ≠ []) (hN2 : ∀ c ∈ N, c.isDigit = true)
    (hs : ∀ c, s2.head? = some c → c.isDigit = false) :
    tryAtP pullLit .free
        (ghLit ++ (owner ++ '/' :: (repo ++ '/' :: (pullLit ++ (N ++ s2))))) =
      some { owner := String.mk owner, repo := String.mk repo,
             prNumber := digitsToNat N } := by
  obtain ⟨ht, hd⟩ := takeWhile_append_split Char.isDigit N s2 hN2 hs
  unfold tryAtP
  simp only [lhas_self_append, List.drop_left, segTake_append ho1 ho2,
    segTake_append hr1 hr2, ht, hd, eq_self_iff_true, if_true]
  simp [ht, hd, List.isEmpty_eq_false.mpr hN1, anchorOk]

theorem dropWhile_of_head_not {p : Char → Bool} {l : List Char}
    (h : ∀ c, l.head? = some c → p c = false) : l.dropWhile p = l := by
  cases l with
  | nil => rfl
  | cons c cs => simp [List.dropWhile_cons, h c rfl]

theorem isDigit_not_ws {c : Char} (h : c.isDigit = true) : isJsWS c = false := by
  cases hb : isJsWS c with
  | false => rfl
  | true =>
    exfalso
    unfold isJsWS at hb
    simp only [Bool.or_eq_true, beq_iff_eq] at hb
    rcases hb with ((((h1 | h1) | h1) | h1) | h1) | h1 <;>
      (subst h1; exact absurd h (by decide))

theorem jsTrim_concat (P suffix : List Char) (hP : P ≠ [])
    (hPhead : ∀ c, P.head? = some c → isJsWS c = false)
    (hPlast : ∀ c, P.getLast? = some c → isJsWS c = false) :
    ∃ s2, jsTrim (P ++ suffix) = P ++ s2 ∧
      (s2 = [] ∨ s2.head? = suffix.head?) := by
  have hdrop : (P ++ suffix).dropWhile isJsWS = P ++ suffix := by
    apply dropWhile_of_head_not
    intro c hc
    rw [List.head?_append_of_ne_nil P hP] at hc
    exact hPhead c hc
  rw [jsTrim, hdrop, List.reverse_append, List.dropWhile_append]
  by_cases hcase : (suffix.reverse.dropWhile isJsWS).isEmpty = true
  · rw [if_pos hcase]
    have hrev : P.reverse.dropWhile isJsWS = P.reverse := by
      apply dropWhile_of_head_not
      intro c hc
      rw [List.head?_reverse] at hc
      exact hPlast c hc
    rw [hrev, List.reverse_reverse]
    exact ⟨[], by simp, Or.inl rfl⟩
  · rw [if_neg hcase, List.reverse_append, List.reverse_reverse]
    refine ⟨(suffix.reverse.dropWhile isJsWS).reverse, rfl, Or.inr ?_⟩
    have hne : (suffix.reverse.dropWhile isJsWS).reverse ≠ [] := by
      simpa [List.reverse_eq_nil_iff, List.isEmpty_iff] using hcase
    have hsplit : suffix = (suffix.reverse.dropWhile isJsWS).reverse ++
        (suffix.reverse.takeWhile isJsWS).reverse := by
      conv_lhs => rw [← List.reverse_reverse suffix,
        ← List.takeWhile_append_dropWhile isJsWS suffix.reverse]
      rw [List.reverse_append]
    conv_rhs => rw [hsplit]
    rw [List.head?_append_of_ne_nil _ hne]

/-- Claim C10: the first `parsePRUrl` pattern is unanchored, so a PR URL
whose number is followed by arbitrary further text (not only a query or
hash suffix) still parses, with `prNumber` the leading digit run after
`pull/`. -/
theorem parsePRUrl_unanchored (owner repo N suffix : List Char)
    (ho1 : owner ≠ []) (ho2 : '/' ∉ owner)
    (hr1 : repo ≠ []) (hr2 : '/' ∉ repo)
    (hN1 : N ≠ []) (hN2 : ∀ c ∈ N, c.isDigit = true)
    (hs : ∀ c, suffix.head? = some c → c.isDigit = false) :
    parsePRUrl (String.mk (httpsLit ++
        (ghLit ++ (owner ++ '/' :: (repo ++ '/' :: (pullLit ++ (N ++ suffix))))))) =
      some { owner := String.mk owner, repo := String.mk repo,
             prNumber := digitsToNat N } := by
  have ho2' : ∀ c ∈ owner, (c == '/') = false :=
    fun c hc => beq_eq_false_iff_ne.mpr fun h => ho2 (h ▸ hc)
  have hr2' : ∀ c ∈ repo, (c == '/') = false :=
    fun c hc => beq_eq_false_iff_ne.mpr fun h => hr2 (h ▸ hc)
  have hassoc : httpsLit ++
      (ghLit ++ (owner ++ '/' :: (repo ++ '/' :: (pullLit ++ (N ++ suffix))))) =
      (httpsLit ++ ghLit ++ owner ++ ['/'] ++ repo ++ ['/'] ++ pullLit ++ N) ++
        suffix := by
    simp [List.append_assoc]
  have hPhead : ∀ c, (httpsLit ++ ghLit ++ owner ++ ['/'] ++ repo ++ ['/'] ++
      pullLit ++ N).head? = some c → isJsWS c = false := by
    intro c hc
    rw [show (httpsLit ++ ghLit ++ owner ++ ['/'] ++ repo ++ ['/'] ++
      pullLit ++ N) = 'h' :: (['t', 't', 'p', 's', ':', '/', '/'] ++ ghLit ++
        owner ++ ['/'] ++ repo ++ ['/'] ++ pullLit ++ N) from by
      simp [httpsLit]] at hc
    simp at hc
    subst hc
    decide
  have hPlast : ∀ c, (httpsLit ++ ghLit ++ owner ++ ['/'] ++ repo ++ ['/'] ++
      pullLit ++ N).getLast? = some c → isJsWS c = false := by
    intro c hc
    rw [List.getLast?_append,
      Option.or_of_isSome (List.getLast?_isSome.mpr hN1)] at hc
    exact isDigit_not_ws (hN2 c (List.mem_of_mem_getLast? hc))
  obtain ⟨s2, htrim, hs2⟩ := jsTrim_concat _ suffix (by simp [httpsLit])
    hPhead hPlast
  have hs2head : ∀ c, s2.head? = some c → c.isDigit = false := by
    intro c hc
    rcases hs2 with h | h
    · subst h; simp at hc
    · exact hs c (h ▸ hc)
  have hscan : scanP pullLit .free (httpsLit ++
      (ghLit ++ (owner ++ '/' :: (repo ++ '/' :: (pullLit ++ (N ++ s2)))))) =
      some { owner := String.mk owner, repo := String.mk repo,
             prNumber := digitsToNat N } := by
    rw [scanP_skip _ _ httpsLit (by decide)]
    exact scanP_of_tryAtP
      (tryAtP_github owner repo N s2 ho1 ho2' hr1 hr2' hN1 hN2 hs2head)
      (by simp [ghLit])
  unfold parsePRUrl
  rw [show (String.mk (httpsLit ++ (ghLit ++ (owner ++ '/' ::
      (repo ++ '/' :: (pullLit ++ (N ++ suffix))))))).toList =
      httpsLit ++ (ghLit ++ (owner ++ '/' ::
        (repo ++ '/' :: (pullLit ++ (N ++ suffix))))) from rfl]
  rw [hassoc, htrim]
  simp [hscan]

/-- Witness for the claim C10 theorem at a concrete input with a
non-query, non-hash suffix after the PR number. -/
theorem parsePRUrl_unanchored_witness :
    parsePRUrl (String.mk (httpsLit ++
        (ghLit ++ (['a', 'c', 'm', 'e'] ++ '/' ::
          (['w', 'i', 'd', 'g', 'e', 't', 's'] ++ '/' ::
            (pullLit ++ (['4', '2'] ++
              ['/', 'f', 'i', 'l', 'e', 's']))))))) =
      some { owner := String.mk ['a', 'c', 'm', 'e'],
             repo := String.mk ['w', 'i', 'd', 'g', 'e', 't', 's'],
             prNumber := digitsToNat ['4', '2'] } :=
  parsePRUrl_unanchored ['a', 'c', 'm', 'e'] ['w', 'i', 'd', 'g', 'e', 't', 's']
    ['4', '2'] ['/', 'f', 'i', 'l', 'e', 's']
    (by decide) (by decide) (by decide) (by decide) (by decide) (by decide)
    (by decide)

end Codula
